import Mathlib

/-!
A shallow embedding of the BM25 job-matching engine (`BM_25.py`) and proofs
of the specified properties.

Conventions of the embedding:
* Python lists/strings become Lean `List`/`String`; dynamic (duck-typed)
  values flowing through student records become the inductive `PyVal`.
* The external text libraries are not part of the repository: `nltk`'s
  `word_tokenize` and BeautifulSoup's `get_text` are abstracted as function
  parameters `tokenize : String → List String` and `getText : String → String`.
* The external `rank_bm25` library is likewise not repository code; the BM25
  index/scoring is modelled from the specification (see the `Modelled from
  the spec:` doc comments).
* Fallible Python code (TypeError, IndexError, pickle errors, the corpus
  `ValueError`) is embedded with `Except String` / explicit outcome types.
* Floating-point scores are modelled as real numbers for the spec-modelled
  scoring formula, and generically over a `LinearOrder` for the ranking and
  match-assembly code, which only compares and transports scores.
-/

namespace JobMatch

/-- Python-style dynamic value, as needed for the fields of a student record:
a string, a list, or a dict with string keys. -/
inductive PyVal where
  | str (s : String)
  | list (l : List PyVal)
  | dict (entries : List (String × PyVal))

/-!  Python string primitives, modelled characterwise over `String.data` so
that they compute inside the kernel.  `lower` is modelled with `Char.toLower`
and `strip` with `Char.isWhitespace`, the ASCII behavior of the Python
originals. -/

/-- Python `str.lower()`. -/
def pyLower (s : String) : String := ⟨s.data.map Char.toLower⟩

/-- Python `str.strip()`: drop leading and trailing whitespace. -/
def pyStrip (s : String) : String :=
  ⟨((s.data.dropWhile Char.isWhitespace).reverse.dropWhile Char.isWhitespace).reverse⟩

/-- Python `str.replace(old, new)` for a one-character pattern and
replacement — the only use in the source is `tags.replace(',', ' ')`. -/
def pyReplaceChar (old new : Char) (s : String) : String :=
  ⟨s.data.map (fun c => if c = old then new else c)⟩

/-- Python `sep.join(items)` on a list of strings. -/
def joinStrings (sep : String) : List String → String
  | [] => ""
  | [x] => x
  | x :: rest => x ++ sep ++ joinStrings sep rest

/-- Python `str.isalpha()`: true iff the string is non-empty and all of its
characters are alphabetic.  Used for the `t.isalpha()` token filters. -/
def pyIsAlpha (s : String) : Bool := !s.data.isEmpty && s.data.all Char.isAlpha

/-- Python list repetition `l * n` (used as `job_roles * 5` and
`job_preferences_list * 2` in `match_students_to_jobs`). -/
def pyMul {β : Type} (l : List β) (n : ℕ) : List β := (List.replicate n l).flatten

mutual

/-- Python `repr` of a `PyVal` (lists and dicts render their items). -/
def pyRepr : PyVal → String
  | .str s => "\x27" ++ s ++ "\x27"
  | .list l => "[" ++ pyReprItems l ++ "]"
  | .dict entries => "\x7b" ++ pyReprEntries entries ++ "\x7d"

/-- Comma-separated `repr`s of the items of a Python list. -/
def pyReprItems : List PyVal → String
  | [] => ""
  | [v] => pyRepr v
  | v :: rest => pyRepr v ++ ", " ++ pyReprItems rest

/-- Comma-separated `key: value` renderings of the items of a Python dict. -/
def pyReprEntries : List (String × PyVal) → String
  | [] => ""
  | [(k, v)] => "\x27" ++ k ++ "\x27: " ++ pyRepr v
  | (k, v) :: rest => "\x27" ++ k ++ "\x27: " ++ pyRepr v ++ ", " ++ pyReprEntries rest

end

/-- Python `str(v)` as used by an f-string interpolation: a string renders as
itself, other values via `repr`. -/
def pyStr : PyVal → String
  | .str s => s
  | v => pyRepr v

/-- A job record (`JobRecord` of the spec): the four recognized text fields of
the documents consumed by `preprocess_jobs` / `match_students_to_jobs`, with
the `.get(field, default)` defaulting for an absent field already folded into
the field value. -/
structure Job where
  title : String
  tagsAndSkills : String
  jobDescription : String
  companyName : String
deriving DecidableEq

instance : Inhabited Job := ⟨⟨"", "", "", ""⟩⟩

/-!  Corpus builder: `preprocess_jobs` (BM_25.py lines 59-93). -/

/-- The combined text of one job: `f"{title} {tags} {plain_description}".strip()`
with `tags = job.get('tagsAndSkills','').replace(',', ' ')` and
`plain_description` the markup-stripped description (`getText`). -/
def combined_text (getText : String → String) (job : Job) : String :=
  pyStrip (job.title ++ " " ++ pyReplaceChar ',' ' ' job.tagsAndSkills ++ " "
    ++ getText job.jobDescription)

/-- The token document of one job:
`[t for t in word_tokenize(combined_text.lower()) if t.isalpha()]`. -/
def jobTokens (tokenize : String → List String) (getText : String → String)
    (job : Job) : List String :=
  (tokenize (pyLower (combined_text getText job))).filter pyIsAlpha

/-- A job survives preprocessing iff its combined text is non-empty and its
filtered token list is non-empty (the two `continue` guards of the loop). -/
def keepJob (tokenize : String → List String) (getText : String → String)
    (job : Job) : Bool :=
  !decide (combined_text getText job = "") && !(jobTokens tokenize getText job).isEmpty

/-- The loop of `preprocess_jobs`, carrying the running original index `idx`
from `enumerate(jobs)`; appends to `job_texts`/`job_index` exactly when
neither `continue` guard fires. -/
def preprocessAux (tokenize : String → List String) (getText : String → String) :
    ℕ → List Job → List (List String) × List ℕ
  | _, [] => ([], [])
  | idx, job :: rest =>
    let r := preprocessAux tokenize getText (idx + 1) rest
    if combined_text getText job = "" then r
    else if jobTokens tokenize getText job = [] then r
    else (jobTokens tokenize getText job :: r.1, idx :: r.2)

/-- `preprocess_jobs(jobs)`: build the token corpus and the index map, raising
(`ValueError`) when no job yields a usable document. -/
def preprocess_jobs (tokenize : String → List String) (getText : String → String)
    (jobs : List Job) : Except String (List (List String) × List ℕ) :=
  let r := preprocessAux tokenize getText 0 jobs
  if r.1 = [] then .error "No valid job descriptions found."
  else .ok r

/-!  BM25 index and scoring.

The `rank_bm25` library (`BM25Okapi`) is an external dependency, not part of
the repository sources, so the index is modelled from the specification
(spec.md §4.3). -/

/-- Term frequency `tf(t, d)`: the number of occurrences of token `t` in the
token document `d`. -/
def tf (d : List String) (t : String) : ℕ := d.count t

/-- Document frequency `df(t)`: the number of documents of the corpus that
contain the token `t`. -/
def df (docs : List (List String)) (t : String) : ℕ :=
  docs.countP (fun d => decide (t ∈ d))

noncomputable section

/-- Modelled from the spec: the BM25 constant `k1 = 1.5`. -/
def k1 : ℝ := 3 / 2

/-- Modelled from the spec: the BM25 constant `b = 0.75`. -/
def b : ℝ := 3 / 4

/-- Modelled from the spec: the average document length
`avgdl = mean(|d|)` over the token corpus. -/
def avgdl (docs : List (List String)) : ℝ :=
  ((docs.map fun d => (d.length : ℝ)).sum) / docs.length

/-- Modelled from the spec: the smoothed inverse document frequency
`idf(t) = ln((N - df(t) + 0.5) / (df(t) + 0.5) + 1)`, the missing
`rank_bm25` build step. -/
def idf (docs : List (List String)) (t : String) : ℝ :=
  Real.log (((docs.length : ℝ) - df docs t + 1 / 2) / ((df docs t : ℝ) + 1 / 2) + 1)

/-- Modelled from the spec: the score contribution of one query term `t` to
one document `d`,
`idf(t) * tf(t,d) * (k1 + 1) / (tf(t,d) + k1 * (1 - b + b * |d| / avgdl))`. -/
def scoreContrib (docs : List (List String)) (d : List String) (t : String) : ℝ :=
  idf docs t * (tf d t : ℝ) * (k1 + 1) /
    ((tf d t : ℝ) + k1 * (1 - b + b * (d.length : ℝ) / avgdl docs))

/-- Modelled from the spec: the BM25 score of one document against a token
query — the sum over the set of distinct query terms of their contributions
(the missing `rank_bm25` scoring loop; terms absent from the corpus
contribute zero through `tf = 0`). -/
def score (docs : List (List String)) (d : List String) (q : List String) : ℝ :=
  ∑ t ∈ q.toFinset, scoreContrib docs d t

/-- Modelled from the spec: `bm25.get_scores(query_tokens)` — one score per
indexed document, in build-time document order. -/
def get_scores (docs : List (List String)) (q : List String) : List ℝ :=
  docs.map fun d => score docs d q

end

/-!  Index cache: `build_or_load_bm25` (BM_25.py lines 104-129). -/

/-- Outcome of `build_or_load_bm25`: the pair served from cache, the pair
freshly rebuilt, or a raised exception. -/
inductive LoadResult (β γ : Type) where
  | loaded (model : β) (index : γ)
  | rebuilt (model : β) (index : γ)
  | raised (msg : String)
deriving DecidableEq

/-- `build_or_load_bm25`: if both cache files exist (`modelBlob`/`indexBlob`
are `some`), unpickle both (`deserModel`/`deserIndex`; a failing unpickle
raises); otherwise run the build-and-cache branch, abstracted as `buildFresh`
(preprocess + `BM25Okapi` construction + pickle dump, whose own failure also
raises). -/
def build_or_load {σ β γ : Type} (deserModel : σ → Option β) (deserIndex : σ → Option γ)
    (modelBlob indexBlob : Option σ) (buildFresh : Except String (β × γ)) :
    LoadResult β γ :=
  match modelBlob, indexBlob with
  | some b1, some b2 =>
    match deserModel b1 with
    | none => .raised "UnpicklingError"
    | some m =>
      match deserIndex b2 with
      | none => .raised "UnpicklingError"
      | some j => .loaded m j
  | _, _ =>
    match buildFresh with
    | .ok (m, j) => .rebuilt m j
    | .error e => .raised e

/-!  Matching logic: `match_students_to_jobs` (BM_25.py lines 136-205). -/

/-- Python `student.get(k, dflt)` on a student dict. -/
def lookupField (student : List (String × PyVal)) (k : String) (dflt : PyVal) : PyVal :=
  match student.find? (fun p => decide (p.1 = k)) with
  | some p => p.2
  | none => dflt

/-- `key.lower() in ['job_roles', 'job_titles']`. -/
def isRoleKey (key : String) : Bool :=
  pyLower key = "job_roles" || pyLower key = "job_titles"

/-- The `job_preferences` bucket loop: returns `(job_roles,
job_preferences_list)`.  List values extend a bucket, string values are
appended, values of any other type fall through. -/
def collectPrefs : List (String × PyVal) → List PyVal × List PyVal
  | [] => ([], [])
  | (key, value) :: rest =>
    let r := collectPrefs rest
    match value with
    | .list l => if isRoleKey key then (l ++ r.1, r.2) else (r.1, l ++ r.2)
    | .str s => if isRoleKey key then (PyVal.str s :: r.1, r.2) else (r.1, PyVal.str s :: r.2)
    | _ => r

/-- Python `list + value`: succeeds with concatenation when `value` is a
list, raises `TypeError` otherwise (as in
`job_roles * 5 + job_preferences_list * 2 + skills + interests`). -/
def pyAddList (l : List PyVal) (v : PyVal) : Except String (List PyVal) :=
  match v with
  | .list l2 => .ok (l ++ l2)
  | _ => .error "TypeError"

/-- Extract the underlying strings of a list of Python values; `none` when
some item is not a string. -/
def allStrings : List PyVal → Option (List String)
  | [] => some []
  | .str s :: rest => (allStrings rest).map (fun ss => s :: ss)
  | _ => none

/-- Python `sep.join(l)`: raises `TypeError` when some item is not a string. -/
def pyJoin (sep : String) (l : List PyVal) : Except String String :=
  match allStrings l with
  | some ss => .ok (joinStrings sep ss)
  | none => .error "TypeError"

/-- The display name of a student:
`f"{first_name} {last_name}".strip() or "Unnamed"`. -/
def studentDisplayName (student : List (String × PyVal)) : String :=
  let first_name := pyStr (lookupField student "first_name" (.str ""))
  let last_name := pyStr (lookupField student "last_name" (.str ""))
  let full := pyStrip (first_name ++ " " ++ last_name)
  if full = "" then "Unnamed" else full

/-- The `(job_roles, job_preferences_list)` buckets of a student: extracted
from `job_preferences` when it is a dict, both empty otherwise. -/
def prefBuckets (student : List (String × PyVal)) : List PyVal × List PyVal :=
  match lookupField student "job_preferences" (.dict []) with
  | .dict entries => collectPrefs entries
  | _ => ([], [])

/-- The raw query term list of a student:
`job_roles * 5 + job_preferences_list * 2 + skills + interests`, where the
two `+ skills`/`+ interests` steps raise `TypeError` when the field value is
not a list. -/
def studentQueryTerms (student : List (String × PyVal)) : Except String (List PyVal) :=
  let buckets := prefBuckets student
  let skills := lookupField student "skills" (.list [])
  let interests := lookupField student "interests" (.list [])
  match pyAddList (pyMul buckets.1 5 ++ pyMul buckets.2 2) skills with
  | .error e => .error e
  | .ok l => pyAddList l interests

/-- One assembled match entry (`MatchResult` of the spec). -/
structure MatchResult (α : Type) where
  company : String
  title : String
  score : α
  snippet : String
deriving DecidableEq

/-- The match record assembled for one `(idx, score)` pair from the resolved
job: company, title, score, and the 150-character snippet with ellipsis. -/
def matchFor {α : Type} (getText : String → String) (job : Job) (s : α) :
    MatchResult α :=
  let description_text := getText job.jobDescription
  { company := job.companyName
    title := job.title
    score := s
    snippet := (⟨description_text.data.take 150⟩ : String)
      ++ (if 150 < description_text.data.length then "..." else "") }

/-- The `for idx, score in top_matches` assembly loop; `jobs[idx]` is an
unchecked positional access that raises `IndexError` when out of range. -/
def buildMatches {α : Type} (getText : String → String) (jobs : List Job) :
    List (ℕ × α) → Except String (List (MatchResult α))
  | [] => .ok []
  | (idx, s) :: rest =>
    match jobs[idx]? with
    | none => .error "IndexError: list index out of range"
    | some job =>
      match buildMatches getText jobs rest with
      | .error e => .error e
      | .ok ms => .ok (matchFor getText job s :: ms)

/-- The per-student body of `match_students_to_jobs`: display name, query
construction, scoring, stable descending ranking
(`sorted(zip(job_index, scores), key=lambda x: x[1], reverse=True)`),
top-N selection, and match assembly. -/
def process_student {α : Type} [LinearOrder α]
    (tokenize : String → List String) (getText : String → String)
    (getScores : List String → List α) (jobs : List Job) (job_index : List ℕ)
    (top_n : ℕ) (student : List (String × PyVal)) :
    Except String (String × List (MatchResult α)) :=
  let student_name := studentDisplayName student
  match studentQueryTerms student with
  | .error e => .error e
  | .ok query_terms =>
    if query_terms.isEmpty then .ok (student_name, [])
    else
      match pyJoin " " query_terms with
      | .error e => .error e
      | .ok query =>
        let query_tokens := (tokenize (pyLower query)).filter pyIsAlpha
        let scores := getScores query_tokens
        let ranked := List.insertionSort (fun a c => c.2 ≤ a.2) (job_index.zip scores)
        let top_matches := ranked.take top_n
        match buildMatches getText jobs top_matches with
        | .error e => .error e
        | .ok student_matches => .ok (student_name, student_matches)

/-- Python dict assignment `all_matches[name] = ms` on an insertion-ordered
dict: overwrite in place when the key exists, append otherwise. -/
def dictInsert {β : Type} (m : List (String × β)) (k : String) (v : β) :
    List (String × β) :=
  if m.any (fun p => decide (p.1 = k)) then
    m.map (fun p => if p.1 = k then (k, v) else p)
  else m ++ [(k, v)]

/-- The `for student in students` loop of `match_students_to_jobs`; the
surrounding `try ... except` re-raises the first fault (as an HTTP 500), so
any per-student error aborts the whole batch with no partial result. -/
def matchLoop {α : Type} [LinearOrder α]
    (tokenize : String → List String) (getText : String → String)
    (getScores : List String → List α) (jobs : List Job) (job_index : List ℕ)
    (top_n : ℕ) :
    List (List (String × PyVal)) → List (String × List (MatchResult α)) →
    Except String (List (String × List (MatchResult α)))
  | [], acc => .ok acc
  | student :: rest, acc =>
    match process_student tokenize getText getScores jobs job_index top_n student with
    | .error e => .error e
    | .ok (name, ms) =>
      matchLoop tokenize getText getScores jobs job_index top_n rest
        (dictInsert acc name ms)

/-- `match_students_to_jobs(students, jobs, bm25, job_index, top_n)`. -/
def match_students_to_jobs {α : Type} [LinearOrder α]
    (tokenize : String → List String) (getText : String → String)
    (getScores : List String → List α) (jobs : List Job) (job_index : List ℕ)
    (top_n : ℕ) (students : List (List (String × PyVal))) :
    Except String (List (String × List (MatchResult α))) :=
  matchLoop tokenize getText getScores jobs job_index top_n students []

/-!  Shape predicates on student records, used to characterize which
malformed records the matcher survives. -/

/-- Every item of the list is a Python string. -/
def allStrVals (l : List PyVal) : Bool :=
  l.all fun v => match v with | .str _ => true | _ => false

/-- A well-shaped sequence field: a list whose items are all strings (the
shape `skills`/`interests` must have for the query concatenation and join
to succeed). -/
def goodSeqField (v : PyVal) : Bool :=
  match v with | .list l => allStrVals l | _ => false

/-- A preference value the bucket loop handles without later faulting: any
non-list value (strings are kept, other scalars ignored), or a list of
strings. -/
def goodPrefVal (v : PyVal) : Bool :=
  match v with | .list l => allStrVals l | _ => true

/-- A student record whose field shapes the matcher survives: `skills` and
`interests` absent-or-lists-of-strings, and every `job_preferences` value
either a non-list or a list of strings. -/
def goodStudent (student : List (String × PyVal)) : Bool :=
  goodSeqField (lookupField student "skills" (.list [])) &&
  goodSeqField (lookupField student "interests" (.list [])) &&
  (match lookupField student "job_preferences" (.dict []) with
   | .dict entries => entries.all fun p => goodPrefVal p.2
   | _ => true)

/-!  Helper lemmas: stability of the descending sort, and facts about
`enumFrom` used to reason about the `preprocess_jobs` loop. -/

theorem filter_orderedInsert {α : Type} [LinearOrder α] (p : ℕ × α) (l : List (ℕ × α)) (s : α) :
    (List.orderedInsert (fun a c => c.2 ≤ a.2) p l).filter (fun q => decide (q.2 = s))
      = if p.2 = s then p :: l.filter (fun q => decide (q.2 = s))
        else l.filter (fun q => decide (q.2 = s)) := by
  induction l with
  | nil =>
    by_cases hp : p.2 = s <;>
      simp [List.orderedInsert, List.filter_cons, hp]
  | cons q rest ih =>
    simp only [List.orderedInsert]
    by_cases hq : q.2 ≤ p.2
    · rw [if_pos hq]
      by_cases hp : p.2 = s <;> by_cases hqs : q.2 = s <;>
        simp [List.filter_cons, hp, hqs]
    · rw [if_neg hq]
      push_neg at hq
      by_cases hp : p.2 = s
      · have hqs : ¬(q.2 = s) := fun h => absurd hq (by rw [h, hp]; exact lt_irrefl s)
        simp [List.filter_cons, hqs, ih, hp]
      · by_cases hqs : q.2 = s <;>
          simp [List.filter_cons, hqs, ih, hp]

theorem filter_insertionSort {α : Type} [LinearOrder α] (l : List (ℕ × α)) (s : α) :
    (List.insertionSort (fun a c => c.2 ≤ a.2) l).filter (fun q => decide (q.2 = s))
      = l.filter (fun q => decide (q.2 = s)) := by
  induction l with
  | nil => rfl
  | cons p rest ih =>
    by_cases hp : p.2 = s <;>
      simp [List.insertionSort, filter_orderedInsert, List.filter_cons, hp, ih]

theorem insertionSort_of_const {α : Type} [LinearOrder α] (l : List (ℕ × α)) (c : α)
    (h : ∀ q ∈ l, q.2 = c) :
    List.insertionSort (fun a c2 => c2.2 ≤ a.2) l = l := by
  have h1 : (List.insertionSort (fun a c2 => c2.2 ≤ a.2) l).filter
      (fun q => decide (q.2 = c)) = l.filter (fun q => decide (q.2 = c)) :=
    filter_insertionSort l c
  have h2 : l.filter (fun q => decide (q.2 = c)) = l :=
    List.filter_eq_self.mpr (fun a ha => decide_eq_true (h a ha))
  have h3 : (List.insertionSort (fun a c2 => c2.2 ≤ a.2) l).filter
      (fun q => decide (q.2 = c)) = List.insertionSort (fun a c2 => c2.2 ≤ a.2) l :=
    List.filter_eq_self.mpr (fun a ha =>
      decide_eq_true (h a ((List.mem_insertionSort _).mp ha)))
  rw [h3, h2] at h1
  exact h1

theorem enumFrom_fst_lt {α : Type} (n : ℕ) (l : List α) :
    ∀ p ∈ List.enumFrom n l, n ≤ p.1 ∧ p.1 < n + l.length := by
  induction l generalizing n with
  | nil => intro p hp; simp at hp
  | cons a rest ih =>
    intro p hp
    simp only [List.enumFrom, List.mem_cons] at hp
    rcases hp with h | h
    · subst h; simp
    · have := ih (n + 1) p h
      simp only [List.length_cons]
      omega

theorem enumFrom_getElem? {α : Type} (n : ℕ) (l : List α) :
    ∀ p ∈ List.enumFrom n l, l[p.1 - n]? = some p.2 := by
  induction l generalizing n with
  | nil => intro p hp; simp at hp
  | cons a rest ih =>
    intro p hp
    simp only [List.enumFrom, List.mem_cons] at hp
    rcases hp with h | h
    · subst h; simp
    · have h1 := ih (n + 1) p h
      have h2 := (enumFrom_fst_lt (n + 1) rest p h).1
      have h3 : p.1 - n = (p.1 - (n + 1)) + 1 := by omega
      rw [h3]
      simpa using h1

theorem enumFrom_pairwise_lt {α : Type} (n : ℕ) (l : List α) :
    (List.enumFrom n l).Pairwise (fun p q => p.1 < q.1) := by
  induction l generalizing n with
  | nil => simp
  | cons a rest ih =>
    simp only [List.enumFrom]
    refine List.Pairwise.cons ?_ (ih (n + 1))
    intro q hq
    have := (enumFrom_fst_lt (n + 1) rest q hq).1
    simpa using lt_of_lt_of_le (Nat.lt_succ_self n) this

/-- The `preprocess_jobs` loop is the filter of the enumerated job list by
the keep condition, mapped to tokens on the one side and to the running
original index on the other. -/
theorem preprocessAux_eq (tokenize : String → List String) (getText : String → String)
    (start : ℕ) (jobs : List Job) :
    preprocessAux tokenize getText start jobs
      = (((List.enumFrom start jobs).filter fun p => keepJob tokenize getText p.2).map
           (fun p => jobTokens tokenize getText p.2),
         ((List.enumFrom start jobs).filter fun p => keepJob tokenize getText p.2).map
           (fun p => p.1)) := by
  induction jobs generalizing start with
  | nil => rfl
  | cons job rest ih =>
    simp only [preprocessAux, List.enumFrom, List.filter_cons]
    by_cases h1 : combined_text getText job = ""
    · have hk : keepJob tokenize getText job = false := by simp [keepJob, h1]
      simp [h1, hk, ih]
    · by_cases h2 : jobTokens tokenize getText job = []
      · have hk : keepJob tokenize getText job = false := by simp [keepJob, h2]
        simp [h1, h2, hk, ih]
      · have hk : keepJob tokenize getText job = true := by simp [keepJob, h1, h2]
        simp [h1, h2, hk, ih]

/-- On success, `preprocess_jobs` returns exactly the filter-map
characterization of the loop. -/
theorem preprocess_jobs_ok {tokenize : String → List String} {getText : String → String}
    {jobs : List Job} {texts : List (List String)} {idxs : List ℕ}
    (h : preprocess_jobs tokenize getText jobs = .ok (texts, idxs)) :
    texts = ((List.enumFrom 0 jobs).filter fun p => keepJob tokenize getText p.2).map
        (fun p => jobTokens tokenize getText p.2) ∧
    idxs = ((List.enumFrom 0 jobs).filter fun p => keepJob tokenize getText p.2).map
        (fun p => p.1) := by
  unfold preprocess_jobs at h
  rw [preprocessAux_eq] at h
  by_cases hc : ((List.enumFrom 0 jobs).filter fun p => keepJob tokenize getText p.2).map
      (fun p => jobTokens tokenize getText p.2) = []
  · simp [hc] at h
  · simp only [hc, if_neg, ite_false, Except.ok.injEq, Prod.mk.injEq] at h
    exact ⟨h.1.symm, h.2.symm⟩

/-- C6: for every input record sequence, a successful corpus build returns
TokenDocuments and CorpusIndexMap of equal length, every CorpusIndexMap value
is a valid position into the original record sequence, the values are
strictly increasing (hence distinct), and the k-th token document is the
token list of the record at original position CorpusIndexMap[k]. -/
theorem C6_corpus_index_map_invariants
    (tokenize : String → List String) (getText : String → String)
    (jobs : List Job) (texts : List (List String)) (idxs : List ℕ)
    (h : preprocess_jobs tokenize getText jobs = .ok (texts, idxs)) :
    idxs.length = texts.length ∧
    (∀ i ∈ idxs, i < jobs.length) ∧
    idxs.Pairwise (· < ·) ∧
    (∀ k, k < texts.length →
      texts.getD k [] = jobTokens tokenize getText (jobs.getD (idxs.getD k 0) default)) := by
  obtain ⟨ht, hi⟩ := preprocess_jobs_ok h
  refine ⟨by rw [ht, hi]; simp, ?_, ?_, ?_⟩
  · intro i hmem
    rw [hi] at hmem
    obtain ⟨p, hpF, hpi⟩ := List.mem_map.mp hmem
    have hpE := List.mem_of_mem_filter hpF
    have := (enumFrom_fst_lt 0 jobs p hpE).2
    omega
  · rw [hi]
    refine List.Pairwise.map _ (fun a c hac => hac) ?_
    exact (enumFrom_pairwise_lt 0 jobs).filter _
  · intro k hk
    rw [ht] at hk
    simp only [List.length_map] at hk
    set F := (List.enumFrom 0 jobs).filter fun p => keepJob tokenize getText p.2 with hF
    have hFk : F[k]? = some (F.get ⟨k, hk⟩) := List.getElem?_eq_getElem hk
    have hmem : F.get ⟨k, hk⟩ ∈ F := List.get_mem F k hk
    have hmemE : F.get ⟨k, hk⟩ ∈ List.enumFrom 0 jobs := List.mem_of_mem_filter hmem
    have hjob := enumFrom_getElem? 0 jobs _ hmemE
    simp only [Nat.sub_zero] at hjob
    have htk : texts.getD k [] = jobTokens tokenize getText (F.get ⟨k, hk⟩).2 := by
      rw [ht, List.getD_eq_getElem?_getD, List.getElem?_map, hFk]
      rfl
    have hik : idxs.getD k 0 = (F.get ⟨k, hk⟩).1 := by
      rw [hi, List.getD_eq_getElem?_getD, List.getElem?_map, hFk]
      rfl
    have hjD : jobs.getD (F.get ⟨k, hk⟩).1 default = (F.get ⟨k, hk⟩).2 := by
      rw [List.getD_eq_getElem?_getD, hjob]
      rfl
    rw [htk, hik, hjD]

/-- C6 witness: a concrete one-record corpus on which the build succeeds and
the invariants hold. -/
theorem C6_corpus_index_map_invariants_witness :
    (preprocess_jobs (fun s => [s]) (fun s => s) [⟨"x", "", "", ""⟩]
        = .ok ([["x"]], [0])) ∧
    (([0] : List ℕ).length = [["x"]].length ∧
      (∀ i ∈ ([0] : List ℕ), i < [(⟨"x", "", "", ""⟩ : Job)].length) ∧
      ([0] : List ℕ).Pairwise (· < ·) ∧
      (∀ k, k < [["x"]].length →
        [["x"]].getD k [] = jobTokens (fun s => [s]) (fun s => s)
          (([(⟨"x", "", "", ""⟩ : Job)]).getD (([0] : List ℕ).getD k 0) default))) :=
  ⟨by rfl, C6_corpus_index_map_invariants (fun s => [s]) (fun s => s)
    [⟨"x", "", "", ""⟩] [["x"]] [0] (by rfl)⟩

/-- When the tokenizer yields no tokens on the empty string, a job is dropped
by the loop exactly when its token document is empty. -/
theorem keepJob_false_iff {tokenize : String → List String} {getText : String → String}
    (h0 : tokenize "" = []) (job : Job) :
    keepJob tokenize getText job = false ↔ jobTokens tokenize getText job = [] := by
  constructor
  · intro h
    rcases Bool.and_eq_false_iff.mp h with h1 | h1
    · have hc : combined_text getText job = "" := by
        by_contra hne
        simp [hne] at h1
      unfold jobTokens
      rw [hc]
      have hpl : pyLower "" = "" := rfl
      rw [hpl, h0]
      rfl
    · rw [Bool.not_eq_false'] at h1
      exact List.isEmpty_iff.mp h1
  · intro h
    simp [keepJob, h]

theorem keepJob_tokens_ne {tokenize : String → List String} {getText : String → String}
    {job : Job} (h : keepJob tokenize getText job = true) :
    jobTokens tokenize getText job ≠ [] := by
  intro hnil
  simp [keepJob, hnil] at h

theorem forall_enumFrom_snd {α : Type} (n : ℕ) (l : List α) (P : α → Prop) :
    (∀ p ∈ List.enumFrom n l, P p.2) ↔ ∀ a ∈ l, P a := by
  constructor
  · intro h a ha
    rw [← List.enumFrom_map_snd n l] at ha
    obtain ⟨p, hp, rfl⟩ := List.mem_map.mp ha
    exact h p hp
  · intro h p hp
    apply h
    rw [← List.enumFrom_map_snd n l]
    exact List.mem_map_of_mem _ hp

/-- C7: the corpus builder silently skips every record whose combined text
yields no tokens, and it fails (EmptyCorpusError, the `ValueError` of the
source) exactly when every record of the input yields no tokens. -/
theorem C7_empty_corpus_error
    (tokenize : String → List String) (getText : String → String)
    (h0 : tokenize "" = []) (jobs : List Job) :
    ((∃ e, preprocess_jobs tokenize getText jobs = .error e) ↔
      ∀ job ∈ jobs, jobTokens tokenize getText job = []) ∧
    (∀ texts idxs, preprocess_jobs tokenize getText jobs = .ok (texts, idxs) →
      ∀ i, i < jobs.length → jobTokens tokenize getText (jobs.getD i default) = [] →
        i ∉ idxs) := by
  constructor
  · unfold preprocess_jobs
    rw [preprocessAux_eq]
    by_cases hc : ((List.enumFrom 0 jobs).filter fun p => keepJob tokenize getText p.2).map
        (fun p => jobTokens tokenize getText p.2) = []
    · rw [hc]
      simp only [if_pos rfl]
      constructor
      · intro _
        have hF : ((List.enumFrom 0 jobs).filter fun p => keepJob tokenize getText p.2) = [] :=
          List.map_eq_nil_iff.mp hc
        have hall := List.filter_eq_nil_iff.mp hF
        rw [← forall_enumFrom_snd 0 jobs (fun job => jobTokens tokenize getText job = [])]
        intro p hp
        have hnot : ¬ keepJob tokenize getText p.2 = true := hall p hp
        have hfalse : keepJob tokenize getText p.2 = false := by
          cases hkb : keepJob tokenize getText p.2
          · rfl
          · exact absurd hkb hnot
        exact (keepJob_false_iff h0 p.2).mp hfalse
      · intro _
        exact ⟨"No valid job descriptions found.", rfl⟩
    · rw [if_neg hc]
      constructor
      · rintro ⟨e, he⟩
        cases he
      · intro hall
        exfalso
        apply hc
        rw [List.map_eq_nil_iff, List.filter_eq_nil_iff]
        intro p hp
        have hTok : jobTokens tokenize getText p.2 = [] :=
          (forall_enumFrom_snd 0 jobs (fun job => jobTokens tokenize getText job = [])).mpr
            hall p hp
        rw [Bool.not_eq_true, keepJob_false_iff h0]
        exact hTok
  · intro texts idxs h i hi hTok hmem
    obtain ⟨_, hidx⟩ := preprocess_jobs_ok h
    rw [hidx] at hmem
    obtain ⟨p, hpF, hpi⟩ := List.mem_map.mp hmem
    have hkeep : keepJob tokenize getText p.2 = true := (List.mem_filter.mp hpF).2
    have hpE : p ∈ List.enumFrom 0 jobs := List.mem_of_mem_filter hpF
    have hjob := enumFrom_getElem? 0 jobs p hpE
    simp only [Nat.sub_zero] at hjob
    have hgetD : jobs.getD p.1 default = p.2 := by
      rw [List.getD_eq_getElem?_getD, hjob]
      rfl
    rw [hpi] at hgetD
    rw [hgetD] at hTok
    exact keepJob_tokens_ne hkeep hTok

/-- C7 witness: a concrete tokenizer (empty on the empty string) and a
one-record corpus instantiating the skip/error characterization. -/
theorem C7_empty_corpus_error_witness :
    ((fun s => if s = "" then ([] : List String) else [s]) "" = []) ∧
    (((∃ e, preprocess_jobs (fun s => if s = "" then [] else [s]) (fun s => s)
          [(⟨"x", "", "", ""⟩ : Job)] = .error e) ↔
        ∀ job ∈ [(⟨"x", "", "", ""⟩ : Job)],
          jobTokens (fun s => if s = "" then [] else [s]) (fun s => s) job = []) ∧
      (∀ texts idxs,
        preprocess_jobs (fun s => if s = "" then [] else [s]) (fun s => s)
            [(⟨"x", "", "", ""⟩ : Job)] = .ok (texts, idxs) →
        ∀ i, i < [(⟨"x", "", "", ""⟩ : Job)].length →
          jobTokens (fun s => if s = "" then [] else [s]) (fun s => s)
            ([(⟨"x", "", "", ""⟩ : Job)].getD i default) = [] → i ∉ idxs)) :=
  ⟨rfl, C7_empty_corpus_error (fun s => if s = "" then [] else [s]) (fun s => s) rfl
    [(⟨"x", "", "", ""⟩ : Job)]⟩

/-!  BM25 scoring properties (spec-modelled index, see §4.3 of the spec). -/

theorem score_congr (docs : List (List String)) (d : List String)
    {q q2 : List String} (h : q.toFinset = q2.toFinset) :
    score docs d q = score docs d q2 := by
  unfold score
  rw [h]

theorem get_scores_congr (docs : List (List String)) {q q2 : List String}
    (h : q.toFinset = q2.toFinset) :
    get_scores docs q = get_scores docs q2 := by
  unfold get_scores
  exact List.map_congr_left (fun d _ => score_congr docs d h)

theorem toFinset_dedup {α : Type} [DecidableEq α] (l : List α) :
    l.dedup.toFinset = l.toFinset := by
  ext a
  simp

theorem toFinset_pyMul {α : Type} [DecidableEq α] (l : List α) :
    ∀ n, n ≠ 0 → (pyMul l n).toFinset = l.toFinset := by
  intro n
  induction n with
  | zero => intro h; exact absurd rfl h
  | succ m ih =>
    intro _
    show ((List.replicate (m + 1) l).flatten).toFinset = l.toFinset
    rw [List.replicate_succ, List.flatten_cons, List.toFinset_append]
    by_cases hm : m = 0
    · subst hm
      simp [pyMul]
    · rw [show (List.replicate m l).flatten = pyMul l m from rfl, ih hm]
      simp

/-- C1: repeating tokens in the query does not change the returned score
vector — the score of a query equals the score of its deduplicated token
sequence, and the 5x/2x bucket repetition of the query builder has no effect
on any score. -/
theorem C1_query_repetition_no_effect (docs : List (List String)) (q : List String)
    (roles prefs skills interests : List String) :
    get_scores docs q.dedup = get_scores docs q ∧
    get_scores docs (pyMul roles 5 ++ pyMul prefs 2 ++ skills ++ interests)
      = get_scores docs (roles ++ prefs ++ skills ++ interests) := by
  constructor
  · exact get_scores_congr docs (toFinset_dedup q)
  · apply get_scores_congr docs
    simp only [List.toFinset_append, toFinset_pyMul roles 5 (by norm_num),
      toFinset_pyMul prefs 2 (by norm_num)]

theorem scoreContrib_eq_zero_of_df_eq_zero (docs : List (List String))
    {d : List String} (t : String) (hd : d ∈ docs) (h : df docs t = 0) :
    scoreContrib docs d t = 0 := by
  have hnot : ¬ (t ∈ d) := by
    intro hmem
    have := List.countP_eq_zero.mp h
    exact absurd (decide_eq_true hmem) (by simpa using this d hd)
  have htf : tf d t = 0 := List.count_eq_zero.mpr hnot
  simp [scoreContrib, htf]

/-- C2: for a non-empty corpus, scoring returns one score per indexed
document in build order; each query term present in the corpus contributes
`idf(t) * tf(t,d) * (k1 + 1) / (tf(t,d) + k1 * (1 - b + b * |d| / avgdl))`
with `k1 = 3/2` and `b = 3/4`, and query terms absent from the corpus
contribute zero (the sum restricts to present terms). -/
theorem C2_score_vector_spec (docs : List (List String)) (hne : docs ≠ [])
    (q : List String) :
    (get_scores docs q).length = docs.length ∧
    ∀ i, i < docs.length →
      (get_scores docs q).getD i 0 =
        ∑ t ∈ q.toFinset.filter (fun t => 0 < df docs t),
          idf docs t * (tf (docs.getD i []) t : ℝ) * (3 / 2 + 1) /
            ((tf (docs.getD i []) t : ℝ) + 3 / 2 *
              (1 - 3 / 4 + 3 / 4 * ((docs.getD i []).length : ℝ) / avgdl docs)) := by
  constructor
  · unfold get_scores
    exact List.length_map docs _
  · intro i hi
    have hgi : (get_scores docs q).getD i 0 = score docs (docs.getD i []) q := by
      unfold get_scores
      rw [List.getD_eq_getElem?_getD, List.getElem?_map, List.getElem?_eq_getElem hi,
        List.getD_eq_getElem?_getD, List.getElem?_eq_getElem hi]
      rfl
    rw [hgi]
    have hd : docs.getD i [] ∈ docs := by
      rw [List.getD_eq_getElem?_getD, List.getElem?_eq_getElem hi]
      exact List.getElem_mem hi
    unfold score
    have hfil : ∀ t ∈ q.toFinset, scoreContrib docs (docs.getD i []) t ≠ 0 →
        0 < df docs t := by
      intro t ht hne2
      rcases Nat.eq_zero_or_pos (df docs t) with h0 | hpos
      · exact absurd (scoreContrib_eq_zero_of_df_eq_zero docs t hd h0) hne2
      · exact hpos
    rw [← Finset.sum_filter_of_ne hfil]
    exact Finset.sum_congr rfl (fun t _ => by simp [scoreContrib, k1, b])

/-- C2 witness: a concrete one-document corpus with a two-term query. -/
theorem C2_score_vector_spec_witness :
    ([["a"]] : List (List String)) ≠ [] ∧
    ((get_scores [["a"]] ["a", "c"]).length = ([["a"]] : List (List String)).length ∧
      ∀ i, i < ([["a"]] : List (List String)).length →
        (get_scores [["a"]] ["a", "c"]).getD i 0 =
          ∑ t ∈ (["a", "c"] : List String).toFinset.filter (fun t => 0 < df [["a"]] t),
            idf [["a"]] t * (tf (([["a"]] : List (List String)).getD i []) t : ℝ) * (3 / 2 + 1) /
              ((tf (([["a"]] : List (List String)).getD i []) t : ℝ) + 3 / 2 *
                (1 - 3 / 4 + 3 / 4 * ((([["a"]] : List (List String)).getD i []).length : ℝ) /
                  avgdl [["a"]]))) :=
  ⟨by decide, C2_score_vector_spec [["a"]] (by decide) ["a", "c"]⟩

/-- C8: the smoothed inverse document frequency is non-negative for every
term of a corpus of at least one document. -/
theorem C8_idf_nonneg (docs : List (List String)) (t : String)
    (hN : 1 ≤ docs.length) (ht : ∃ d ∈ docs, t ∈ d) :
    0 ≤ idf docs t := by
  unfold idf
  apply Real.log_nonneg
  have hdf : df docs t ≤ docs.length := List.countP_le_length _
  have hcast : (df docs t : ℝ) ≤ (docs.length : ℝ) := Nat.cast_le.mpr hdf
  have h1 : (0 : ℝ) ≤ (docs.length : ℝ) - (df docs t : ℝ) + 1 / 2 := by linarith
  have h2 : (0 : ℝ) < (df docs t : ℝ) + 1 / 2 := by positivity
  have h3 := div_nonneg h1 (le_of_lt h2)
  linarith

/-- C8 witness: the one-document corpus `[["a"]]` and its term `"a"`. -/
theorem C8_idf_nonneg_witness :
    (1 ≤ ([["a"]] : List (List String)).length ∧
      ∃ d ∈ ([["a"]] : List (List String)), "a" ∈ d) ∧
    0 ≤ idf [["a"]] "a" :=
  ⟨⟨by decide, by decide⟩, C8_idf_nonneg [["a"]] "a" (by decide) (by decide)⟩

/-!  Lemmas about the match-assembly loop. -/

theorem buildMatches_ok_shape {α : Type} (getText : String → String) (jobs : List Job) :
    ∀ (l : List (ℕ × α)) (ms : List (MatchResult α)),
      buildMatches getText jobs l = .ok ms →
      ms.length = l.length ∧ ms.map MatchResult.score = l.map (fun p => p.2) := by
  intro l
  induction l with
  | nil =>
    intro ms h
    unfold buildMatches at h
    simp only [Except.ok.injEq] at h
    subst h
    exact ⟨rfl, rfl⟩
  | cons p rest ih =>
    intro ms h
    obtain ⟨idx, s⟩ := p
    unfold buildMatches at h
    cases hj : jobs[idx]? with
    | none => rw [hj] at h; simp at h
    | some job =>
      rw [hj] at h
      cases hb : buildMatches getText jobs rest with
      | error e => rw [hb] at h; simp at h
      | ok ms0 =>
        rw [hb] at h
        simp only [Except.ok.injEq] at h
        subst h
        obtain ⟨h1, h2⟩ := ih ms0 hb
        refine ⟨by simp [h1], ?_⟩
        simp only [List.map_cons, h2]
        rfl

theorem buildMatches_eq_of_valid {α : Type} (getText : String → String) (jobs : List Job) :
    ∀ (l : List (ℕ × α)), (∀ p ∈ l, p.1 < jobs.length) →
      buildMatches getText jobs l
        = .ok (l.map fun p => matchFor getText (jobs.getD p.1 default) p.2) := by
  intro l
  induction l with
  | nil => intro _; rfl
  | cons p rest ih =>
    intro hv
    obtain ⟨idx, s⟩ := p
    have hidx : idx < jobs.length := hv (idx, s) (List.mem_cons_self _ _)
    have hj : jobs[idx]? = some jobs[idx] := List.getElem?_eq_getElem hidx
    have hD : jobs.getD idx default = jobs[idx] := by
      rw [List.getD_eq_getElem?_getD, hj]
      rfl
    unfold buildMatches
    rw [hj, ih (fun p hp => hv p (List.mem_cons_of_mem _ hp))]
    simp only [List.map_cons]
    rw [hD]

/-- C10: resolving the ranked indices through `jobs[idx]` never faults
provided every entry of `job_index` is a valid position below `len(jobs)`:
every pair selected into the top-N carries an in-range index, and the match
assembly succeeds.  (The validity precondition is a genuine hypothesis: the
code itself never re-validates a cache-loaded `job_index` against `jobs`.) -/
theorem C10_positional_access_safe {α : Type} [LinearOrder α]
    (getText : String → String) (jobs : List Job) (job_index : List ℕ)
    (scores : List α) (top_n : ℕ)
    (hvalid : ∀ i ∈ job_index, i < jobs.length) :
    (∀ p ∈ (List.insertionSort (fun a c => c.2 ≤ a.2) (job_index.zip scores)).take top_n,
        p.1 < jobs.length) ∧
    ∃ ms, buildMatches getText jobs
        ((List.insertionSort (fun a c => c.2 ≤ a.2) (job_index.zip scores)).take top_n)
      = .ok ms := by
  have hmem : ∀ p ∈ (List.insertionSort (fun a c => c.2 ≤ a.2)
      (job_index.zip scores)).take top_n, p.1 < jobs.length := by
    intro p hp
    have hp1 : p ∈ List.insertionSort (fun a c => c.2 ≤ a.2) (job_index.zip scores) :=
      (List.take_sublist top_n _).mem hp
    have hp2 : p ∈ job_index.zip scores := (List.mem_insertionSort _).mp hp1
    obtain ⟨i, s⟩ := p
    exact hvalid i (List.of_mem_zip hp2).1
  exact ⟨hmem, _, buildMatches_eq_of_valid getText jobs _ hmem⟩

/-- C10 witness: a one-job corpus with a valid index map. -/
theorem C10_positional_access_safe_witness :
    (∀ i ∈ ([0] : List ℕ), i < [(default : Job)].length) ∧
    ((∀ p ∈ (List.insertionSort (fun a c => c.2 ≤ a.2)
          (([0] : List ℕ).zip ([0] : List ℚ))).take 10,
        p.1 < [(default : Job)].length) ∧
      ∃ ms, buildMatches (fun s => s) [(default : Job)]
          ((List.insertionSort (fun a c => c.2 ≤ a.2)
            (([0] : List ℕ).zip ([0] : List ℚ))).take 10)
        = .ok ms) :=
  ⟨by decide, C10_positional_access_safe (fun s => s) [default] [0] [0] 10 (by decide)⟩

/-!  Reduction lemmas for `process_student` on the scoring path. -/

theorem process_student_join_error {α : Type} [LinearOrder α]
    (tokenize : String → List String) (getText : String → String)
    (getScores : List String → List α) (jobs : List Job) (job_index : List ℕ)
    (top_n : ℕ) (student : List (String × PyVal)) (qts : List PyVal) (e : String)
    (hqts : studentQueryTerms student = .ok qts)
    (hne : qts ≠ [])
    (hjoin : pyJoin " " qts = .error e) :
    process_student tokenize getText getScores jobs job_index top_n student
      = .error e := by
  have hie : qts.isEmpty = false := List.isEmpty_eq_false.mpr hne
  simp only [process_student, hqts, hie, hjoin, Bool.false_eq_true, if_false]

theorem process_student_reduce {α : Type} [LinearOrder α]
    (tokenize : String → List String) (getText : String → String)
    (getScores : List String → List α) (jobs : List Job) (job_index : List ℕ)
    (top_n : ℕ) (student : List (String × PyVal)) (qts : List PyVal) (query : String)
    (hqts : studentQueryTerms student = .ok qts)
    (hne : qts ≠ [])
    (hjoin : pyJoin " " qts = .ok query) :
    process_student tokenize getText getScores jobs job_index top_n student
      = match buildMatches getText jobs
          ((List.insertionSort (fun a c => c.2 ≤ a.2)
            (job_index.zip (getScores ((tokenize (pyLower query)).filter pyIsAlpha)))).take
              top_n) with
        | .error e => .error e
        | .ok ms => .ok (studentDisplayName student, ms) := by
  have hie : qts.isEmpty = false := List.isEmpty_eq_false.mpr hne
  simp only [process_student, hqts, hie, hjoin, Bool.false_eq_true, if_false]

/-- C3: for a student whose raw query is non-empty and whose processing
succeeds, the returned match list has length `min(top_n, N)` where `N` is
the number of indexed documents, its scores are in descending order, and
the ranking of `(index, score)` pairs is stable: among equal scores the
original `index_map` order is preserved. -/
theorem C3_topn_sorted_stable {α : Type} [LinearOrder α]
    (tokenize : String → List String) (getText : String → String)
    (getScores : List String → List α) (jobs : List Job) (job_index : List ℕ)
    (top_n : ℕ) (student : List (String × PyVal)) (qts : List PyVal)
    (name : String) (ms : List (MatchResult α))
    (hlen : ∀ q, (getScores q).length = job_index.length)
    (hqts : studentQueryTerms student = .ok qts)
    (hne : qts ≠ [])
    (hok : process_student tokenize getText getScores jobs job_index top_n student
      = .ok (name, ms)) :
    ms.length = min top_n job_index.length ∧
    List.Sorted (fun x y => y ≤ x) (ms.map MatchResult.score) ∧
    ∀ (sc : List α) (s : α),
      (List.insertionSort (fun a c => c.2 ≤ a.2) (job_index.zip sc)).filter
          (fun p => decide (p.2 = s))
        = (job_index.zip sc).filter (fun p => decide (p.2 = s)) := by
  cases hj : pyJoin " " qts with
  | error e =>
    rw [process_student_join_error tokenize getText getScores jobs job_index top_n
      student qts e hqts hne hj] at hok
    simp at hok
  | ok query =>
    rw [process_student_reduce tokenize getText getScores jobs job_index top_n
      student qts query hqts hne hj] at hok
    cases hb : buildMatches getText jobs
        ((List.insertionSort (fun a c => c.2 ≤ a.2)
          (job_index.zip (getScores ((tokenize (pyLower query)).filter pyIsAlpha)))).take
            top_n) with
    | error e => rw [hb] at hok; simp at hok
    | ok ms0 =>
      rw [hb] at hok
      simp only [Except.ok.injEq, Prod.mk.injEq] at hok
      obtain ⟨-, hms⟩ := hok
      subst hms
      obtain ⟨hlen0, hmap0⟩ := buildMatches_ok_shape getText jobs _ _ hb
      haveI : IsTotal (ℕ × α) (fun a c => c.2 ≤ a.2) := ⟨fun a c => le_total c.2 a.2⟩
      haveI : IsTrans (ℕ × α) (fun a c => c.2 ≤ a.2) := ⟨fun _ _ _ h1 h2 => le_trans h2 h1⟩
      refine ⟨?_, ?_, fun sc s => filter_insertionSort (job_index.zip sc) s⟩
      · rw [hlen0, List.length_take, List.length_insertionSort, List.length_zip,
          hlen ((tokenize (pyLower query)).filter pyIsAlpha), Nat.min_self]
      · have hsor := List.sorted_insertionSort (fun (a c : ℕ × α) => c.2 ≤ a.2)
          (job_index.zip (getScores ((tokenize (pyLower query)).filter pyIsAlpha)))
        have htake : (((List.insertionSort (fun (a c : ℕ × α) => c.2 ≤ a.2)
            (job_index.zip (getScores ((tokenize (pyLower query)).filter
              pyIsAlpha)))).take top_n)).Pairwise (fun a c => c.2 ≤ a.2) :=
          List.Pairwise.sublist (List.take_sublist _ _) hsor
        rw [hmap0]
        exact List.Pairwise.map _ (fun a c h => h) htake

/-- C3 witness: a concrete student, index and scorer on which processing
succeeds with the stated shape. -/
theorem C3_topn_sorted_stable_witness :
    ((∀ q : List String, ((fun _ => [(0 : ℚ)]) q).length = ([0] : List ℕ).length) ∧
      studentQueryTerms [("skills", PyVal.list [PyVal.str "a"])] = .ok [PyVal.str "a"] ∧
      ([PyVal.str "a"] ≠ []) ∧
      process_student (fun _ => []) (fun s => s) (fun _ => [(0 : ℚ)])
          [(default : Job)] [0] 10 [("skills", PyVal.list [PyVal.str "a"])]
        = .ok ("Unnamed", [matchFor (fun s => s) (default : Job) (0 : ℚ)])) ∧
    (([matchFor (fun s => s) (default : Job) (0 : ℚ)]).length = min 10 ([0] : List ℕ).length ∧
      List.Sorted (fun x y => y ≤ x)
        (([matchFor (fun s => s) (default : Job) (0 : ℚ)]).map MatchResult.score) ∧
      ∀ (sc : List ℚ) (s : ℚ),
        (List.insertionSort (fun a c => c.2 ≤ a.2) (([0] : List ℕ).zip sc)).filter
            (fun p => decide (p.2 = s))
          = (([0] : List ℕ).zip sc).filter (fun p => decide (p.2 = s))) :=
  ⟨⟨fun _ => rfl, rfl, List.cons_ne_nil _ _, rfl⟩,
    C3_topn_sorted_stable (fun _ => []) (fun s => s) (fun _ => [(0 : ℚ)])
      [(default : Job)] [0] 10 [("skills", PyVal.list [PyVal.str "a"])]
      [PyVal.str "a"] "Unnamed" [matchFor (fun s => s) (default : Job) (0 : ℚ)]
      (fun _ => rfl) rfl (List.cons_ne_nil _ _) rfl⟩

theorem map_fun_const_eq_replicate {α β : Type} (l : List α) (c : β) :
    l.map (fun _ => c) = List.replicate l.length c := by
  induction l with
  | nil => rfl
  | cons a rest ih => simp [List.replicate_succ, ih]

theorem get_scores_nil (docs : List (List String)) :
    get_scores docs [] = List.replicate docs.length 0 := by
  unfold get_scores
  rw [show (fun d => score docs d []) = (fun _ : List String => (0 : ℝ)) from
    funext (fun d => by simp [score])]
  exact map_fun_const_eq_replicate docs 0

theorem zip_replicate_eq_map {α : Type} (l : List ℕ) (c : α) :
    l.zip (List.replicate l.length c) = l.map (fun i => (i, c)) := by
  induction l with
  | nil => rfl
  | cons a rest ih => simp [List.replicate_succ, ih]

/-- C9: a student whose raw query terms are non-empty but whose normalized
token sequence is empty still gets scored: the all-zero score vector is
ranked stably, so the matcher returns the first `min(top_n, N)` indexed
documents in corpus order, each with score `0`, rather than an empty list. -/
theorem C9_empty_token_query_scores_zero (docs : List (List String))
    (tokenize : String → List String) (getText : String → String)
    (jobs : List Job) (job_index : List ℕ) (top_n : ℕ)
    (student : List (String × PyVal)) (qts : List PyVal) (query : String)
    (hvalid : ∀ i ∈ job_index, i < jobs.length)
    (hN : docs.length = job_index.length)
    (hqts : studentQueryTerms student = .ok qts)
    (hne : qts ≠ [])
    (hjoin : pyJoin " " qts = .ok query)
    (htok : (tokenize (pyLower query)).filter pyIsAlpha = []) :
    process_student tokenize getText (get_scores docs) jobs job_index top_n student
      = .ok (studentDisplayName student,
          (job_index.take top_n).map (fun i => matchFor getText (jobs.getD i default) 0)) ∧
    ((job_index.take top_n).map
        (fun i => matchFor getText (jobs.getD i default) (0 : ℝ))).length
      = min top_n job_index.length := by
  constructor
  · rw [process_student_reduce tokenize getText (get_scores docs) jobs job_index top_n
      student qts query hqts hne hjoin]
    rw [htok, get_scores_nil docs, hN, zip_replicate_eq_map job_index (0 : ℝ)]
    rw [insertionSort_of_const (job_index.map fun i => (i, (0 : ℝ))) 0
      (by
        intro q hq
        obtain ⟨i, hi, rfl⟩ := List.mem_map.mp hq
        rfl)]
    rw [← List.map_take]
    rw [buildMatches_eq_of_valid getText jobs _
      (by
        intro p hp
        obtain ⟨i, hi, rfl⟩ := List.mem_map.mp hp
        exact hvalid i ((List.take_sublist _ _).mem hi))]
    rw [List.map_map]
    rfl
  · rw [List.length_map, List.length_take]

/-- C9 witness: a student whose skills survive as raw terms but tokenize to
nothing, over a concrete one-document corpus. -/
theorem C9_empty_token_query_scores_zero_witness :
    ((∀ i ∈ ([0] : List ℕ), i < [(default : Job)].length) ∧
      ([["a"]] : List (List String)).length = ([0] : List ℕ).length ∧
      studentQueryTerms [("skills", PyVal.list [PyVal.str "a"])] = .ok [PyVal.str "a"] ∧
      ([PyVal.str "a"] ≠ []) ∧
      pyJoin " " [PyVal.str "a"] = .ok "a" ∧
      (((fun (_ : String) => ([] : List String)) (pyLower "a")).filter pyIsAlpha = [])) ∧
    (process_student (fun _ => []) (fun s => s) (get_scores [["a"]])
        [(default : Job)] [0] 5 [("skills", PyVal.list [PyVal.str "a"])]
      = .ok (studentDisplayName [("skills", PyVal.list [PyVal.str "a"])],
          (([0] : List ℕ).take 5).map
            (fun i => matchFor (fun s => s) ([(default : Job)].getD i default) 0)) ∧
      ((([0] : List ℕ).take 5).map
          (fun i => matchFor (fun s => s) ([(default : Job)].getD i default) (0 : ℝ))).length
        = min 5 ([0] : List ℕ).length) :=
  ⟨⟨by decide, rfl, rfl, List.cons_ne_nil _ _, rfl, rfl⟩,
    C9_empty_token_query_scores_zero [["a"]] (fun _ => []) (fun s => s)
      [(default : Job)] [0] 5 [("skills", PyVal.list [PyVal.str "a"])]
      [PyVal.str "a"] "a" (by decide) rfl rfl (List.cons_ne_nil _ _) rfl rfl⟩

/-!  Cache-load behavior (`build_or_load_bm25`). -/

/-- C4 counterexample: when both cache artifacts exist but the first fails
to deserialize, the load raises instead of behaving as a cache miss — even
though the fresh build would succeed, the rebuild branch is never taken. -/
theorem C4_cache_corruption_counterexample :
    build_or_load (fun blob : Bool => if blob then some (0 : ℕ) else none)
        (fun blob : Bool => if blob then some (0 : ℕ) else none)
        (some false) (some true) (.ok (0, 0))
      = .raised "UnpicklingError" ∧
    ¬ ∃ m j : ℕ,
      build_or_load (fun blob : Bool => if blob then some (0 : ℕ) else none)
          (fun blob : Bool => if blob then some (0 : ℕ) else none)
          (some false) (some true) (.ok (0, 0))
        = .rebuilt m j :=
  ⟨rfl, fun ⟨_, _, h⟩ => nomatch h⟩

/-- C4 (amended): the cached pair is served exactly when both artifacts
exist and both deserialize; a missing artifact sends the load down the
rebuild branch; but an artifact that exists and fails to deserialize raises
the deserialization error to the caller instead of triggering a rebuild. -/
theorem C4_cache_load_amended {σ β γ : Type}
    (deserModel : σ → Option β) (deserIndex : σ → Option γ)
    (buildFresh : Except String (β × γ)) :
    (∀ b1 b2 m j, deserModel b1 = some m → deserIndex b2 = some j →
      build_or_load deserModel deserIndex (some b1) (some b2) buildFresh
        = .loaded m j) ∧
    (∀ modelBlob indexBlob, modelBlob = none ∨ indexBlob = none →
      build_or_load deserModel deserIndex modelBlob indexBlob buildFresh
        = match buildFresh with
          | .ok (m, j) => .rebuilt m j
          | .error e => .raised e) ∧
    (∀ b1 b2, deserModel b1 = none ∨ deserIndex b2 = none →
      build_or_load deserModel deserIndex (some b1) (some b2) buildFresh
        = .raised "UnpicklingError") := by
  refine ⟨?_, ?_, ?_⟩
  · intro b1 b2 m j h1 h2
    simp only [build_or_load, h1, h2]
  · intro modelBlob indexBlob h
    rcases h with rfl | rfl
    · rfl
    · cases modelBlob <;> rfl
  · intro b1 b2 h
    cases hm : deserModel b1 with
    | none => simp only [build_or_load, hm]
    | some m =>
      rcases h with h1 | h1
      · exact absurd hm (by rw [h1]; exact fun he => nomatch he)
      · simp only [build_or_load, hm, h1]

/-- C4 witness: concrete deserializers exercising the three branches of the
amended load contract. -/
theorem C4_cache_load_amended_witness :
    ((fun blob : Bool => if blob then some (0 : ℕ) else none) true = some 0 ∧
      build_or_load (fun blob : Bool => if blob then some (0 : ℕ) else none)
          (fun blob : Bool => if blob then some (0 : ℕ) else none)
          (some true) (some true) (.ok (0, 0)) = .loaded 0 0) ∧
    (build_or_load (fun blob : Bool => if blob then some (0 : ℕ) else none)
        (fun blob : Bool => if blob then some (0 : ℕ) else none)
        none (some true) (.ok (0, 0))
      = match (Except.ok ((0 : ℕ), (0 : ℕ)) : Except String (ℕ × ℕ)) with
        | .ok (m, j) => LoadResult.rebuilt m j
        | .error e => LoadResult.raised e) ∧
    (build_or_load (fun blob : Bool => if blob then some (0 : ℕ) else none)
        (fun blob : Bool => if blob then some (0 : ℕ) else none)
        (some false) (some true) (.ok (0, 0)) = .raised "UnpicklingError") :=
  ⟨⟨rfl, (C4_cache_load_amended (fun blob : Bool => if blob then some (0 : ℕ) else none)
      (fun blob : Bool => if blob then some (0 : ℕ) else none) (.ok (0, 0))).1
        true true 0 0 rfl rfl⟩,
    (C4_cache_load_amended (fun blob : Bool => if blob then some (0 : ℕ) else none)
      (fun blob : Bool => if blob then some (0 : ℕ) else none) (.ok (0, 0))).2.1
        none (some true) (Or.inl rfl),
    (C4_cache_load_amended (fun blob : Bool => if blob then some (0 : ℕ) else none)
      (fun blob : Bool => if blob then some (0 : ℕ) else none) (.ok (0, 0))).2.2
        false true (Or.inl rfl)⟩

/-!  Malformed-student handling (`match_students_to_jobs`). -/

theorem allStrVals_append {l1 l2 : List PyVal} (h1 : allStrVals l1 = true)
    (h2 : allStrVals l2 = true) : allStrVals (l1 ++ l2) = true := by
  unfold allStrVals at *
  rw [List.all_append, h1, h2]
  rfl

theorem allStrVals_pyMul {l : List PyVal} (h : allStrVals l = true) :
    ∀ n, allStrVals (pyMul l n) = true := by
  intro n
  induction n with
  | zero => rfl
  | succ m ih =>
    show allStrVals ((List.replicate (m + 1) l).flatten) = true
    rw [List.replicate_succ, List.flatten_cons]
    exact allStrVals_append h ih

theorem allStrVals_cons_str (s : String) {l : List PyVal}
    (h : allStrVals l = true) : allStrVals (PyVal.str s :: l) = true := by
  unfold allStrVals at *
  rw [List.all_cons, h]
  rfl

theorem collectPrefs_allStr :
    ∀ entries : List (String × PyVal),
      (entries.all fun p => goodPrefVal p.2) = true →
      allStrVals (collectPrefs entries).1 = true ∧
        allStrVals (collectPrefs entries).2 = true := by
  intro entries
  induction entries with
  | nil => intro _; exact ⟨rfl, rfl⟩
  | cons e rest ih =>
    intro h
    rw [List.all_cons, Bool.and_eq_true] at h
    obtain ⟨hv, hrest⟩ := h
    obtain ⟨ih1, ih2⟩ := ih hrest
    obtain ⟨key, value⟩ := e
    cases value with
    | str s =>
      by_cases hk : isRoleKey key = true <;>
        simp only [collectPrefs, hk, if_true, if_false]
      · exact ⟨allStrVals_cons_str s ih1, ih2⟩
      · exact ⟨ih1, allStrVals_cons_str s ih2⟩
    | list l =>
      have hl : allStrVals l = true := hv
      by_cases hk : isRoleKey key = true <;>
        simp only [collectPrefs, hk, if_true, if_false]
      · exact ⟨allStrVals_append hl ih1, ih2⟩
      · exact ⟨ih1, allStrVals_append hl ih2⟩
    | dict d =>
      simpa [collectPrefs] using ⟨ih1, ih2⟩

theorem prefBuckets_allStr (student : List (String × PyVal))
    (h : (match lookupField student "job_preferences" (.dict []) with
          | .dict entries => entries.all fun p => goodPrefVal p.2
          | _ => true) = true) :
    allStrVals (prefBuckets student).1 = true ∧
      allStrVals (prefBuckets student).2 = true := by
  unfold prefBuckets
  cases hv : lookupField student "job_preferences" (.dict []) with
  | dict entries =>
    rw [hv] at h
    exact collectPrefs_allStr entries h
  | str s => exact ⟨rfl, rfl⟩
  | list l => exact ⟨rfl, rfl⟩

theorem studentQueryTerms_ok_of_good (student : List (String × PyVal))
    (h : goodStudent student = true) :
    ∃ qts, studentQueryTerms student = .ok qts ∧ allStrVals qts = true := by
  unfold goodStudent at h
  rw [Bool.and_eq_true, Bool.and_eq_true] at h
  obtain ⟨⟨hsk, hint⟩, hpref⟩ := h
  obtain ⟨hb1, hb2⟩ := prefBuckets_allStr student hpref
  obtain ⟨ls, hlsEq, hlsStr⟩ :
      ∃ ls, lookupField student "skills" (.list []) = .list ls ∧
        allStrVals ls = true := by
    cases hv : lookupField student "skills" (.list []) with
    | list l => exact ⟨l, rfl, by rw [hv] at hsk; exact hsk⟩
    | str s => rw [hv] at hsk; exact absurd hsk (by simp [goodSeqField])
    | dict d => rw [hv] at hsk; exact absurd hsk (by simp [goodSeqField])
  obtain ⟨li, hliEq, hliStr⟩ :
      ∃ li, lookupField student "interests" (.list []) = .list li ∧
        allStrVals li = true := by
    cases hv : lookupField student "interests" (.list []) with
    | list l => exact ⟨l, rfl, by rw [hv] at hint; exact hint⟩
    | str s => rw [hv] at hint; exact absurd hint (by simp [goodSeqField])
    | dict d => rw [hv] at hint; exact absurd hint (by simp [goodSeqField])
  refine ⟨pyMul (prefBuckets student).1 5 ++ pyMul (prefBuckets student).2 2 ++ ls ++ li,
    ?_, ?_⟩
  · simp only [studentQueryTerms, hlsEq, hliEq, pyAddList]
  · exact allStrVals_append
      (allStrVals_append
        (allStrVals_append (allStrVals_pyMul hb1 5) (allStrVals_pyMul hb2 2)) hlsStr)
      hliStr

theorem allStrings_of_allStrVals :
    ∀ {l : List PyVal}, allStrVals l = true → ∃ ss, allStrings l = some ss := by
  intro l
  induction l with
  | nil => intro _; exact ⟨[], rfl⟩
  | cons v rest ih =>
    intro h
    unfold allStrVals at h
    rw [List.all_cons, Bool.and_eq_true] at h
    obtain ⟨hv, hrest⟩ := h
    cases v with
    | str s =>
      obtain ⟨ss, hss⟩ := ih hrest
      exact ⟨s :: ss, by simp [allStrings, hss]⟩
    | list l2 => exact absurd hv (by simp)
    | dict d => exact absurd hv (by simp)

theorem pyJoin_ok_of_allStr {l : List PyVal} (h : allStrVals l = true) (sep : String) :
    ∃ s, pyJoin sep l = .ok s := by
  obtain ⟨ss, hss⟩ := allStrings_of_allStrVals h
  exact ⟨joinStrings sep ss, by simp [pyJoin, hss]⟩

theorem take_sort_zip_fst_lt {α : Type} [LinearOrder α] {jobs : List Job}
    {job_index : List ℕ} (hvalid : ∀ i ∈ job_index, i < jobs.length)
    (sc : List α) (top_n : ℕ) :
    ∀ p ∈ (List.insertionSort (fun a c => c.2 ≤ a.2) (job_index.zip sc)).take top_n,
      p.1 < jobs.length := by
  intro p hp
  have hp1 := (List.take_sublist top_n _).mem hp
  have hp2 := (List.mem_insertionSort _).mp hp1
  obtain ⟨i, s⟩ := p
  exact hvalid i (List.of_mem_zip hp2).1

theorem process_student_ok_of_good {α : Type} [LinearOrder α]
    (tokenize : String → List String) (getText : String → String)
    (getScores : List String → List α) (jobs : List Job) (job_index : List ℕ)
    (top_n : ℕ) (student : List (String × PyVal))
    (hvalid : ∀ i ∈ job_index, i < jobs.length)
    (hgood : goodStudent student = true) :
    ∃ name ms,
      process_student tokenize getText getScores jobs job_index top_n student
        = .ok (name, ms) := by
  obtain ⟨qts, hqts, hstr⟩ := studentQueryTerms_ok_of_good student hgood
  by_cases hne : qts = []
  · subst hne
    exact ⟨studentDisplayName student, [],
      by simp [process_student, hqts]⟩
  · obtain ⟨query, hjoin⟩ := pyJoin_ok_of_allStr hstr " "
    rw [process_student_reduce tokenize getText getScores jobs job_index top_n
      student qts query hqts hne hjoin]
    rw [buildMatches_eq_of_valid getText jobs _
      (fun p hp => take_sort_zip_fst_lt hvalid _ top_n p hp)]
    exact ⟨_, _, rfl⟩

theorem matchLoop_ok_of_good {α : Type} [LinearOrder α]
    (tokenize : String → List String) (getText : String → String)
    (getScores : List String → List α) (jobs : List Job) (job_index : List ℕ)
    (top_n : ℕ) (hvalid : ∀ i ∈ job_index, i < jobs.length) :
    ∀ students : List (List (String × PyVal)),
      (∀ s ∈ students, goodStudent s = true) →
      ∀ acc, ∃ res,
        matchLoop tokenize getText getScores jobs job_index top_n students acc
          = .ok res := by
  intro students
  induction students with
  | nil => intro _ acc; exact ⟨acc, rfl⟩
  | cons st rest ih =>
    intro h acc
    obtain ⟨name, ms, hps⟩ := process_student_ok_of_good tokenize getText getScores
      jobs job_index top_n st hvalid (h st (List.mem_cons_self _ _))
    have hrest := ih (fun s hs => h s (List.mem_cons_of_mem _ hs)) (dictInsert acc name ms)
    unfold matchLoop
    rw [hps]
    exact hrest

/-- C5 counterexample: a student whose `skills` field is a string rather
than a sequence makes `match_students_to_jobs` fail the whole batch with a
TypeError instead of defaulting the field. -/
theorem C5_malformed_student_counterexample :
    match_students_to_jobs (fun _ => []) (fun s => s) (fun _ => [(0 : ℚ)])
        [(default : Job)] [0] 10 [[("skills", PyVal.str "python")]]
      = .error "TypeError" ∧
    ¬ ∃ res, match_students_to_jobs (fun _ => []) (fun s => s) (fun _ => [(0 : ℚ)])
        [(default : Job)] [0] 10 [[("skills", PyVal.str "python")]]
      = .ok res :=
  ⟨rfl, fun ⟨_, h⟩ => nomatch h⟩

/-- C5 (amended): missing fields are defaulted (absent `skills`/`interests`
become empty lists, a missing or non-dict `job_preferences` contributes
nothing) and a batch of students whose present fields are well-shaped never
fails; but a present `skills` or `interests` value that is not a sequence
(or a non-string query term) raises a TypeError that aborts the whole
batch, as the counterexample shows. -/
theorem C5_best_effort_defaulting_amended {α : Type} [LinearOrder α]
    (tokenize : String → List String) (getText : String → String)
    (getScores : List String → List α) (jobs : List Job) (job_index : List ℕ)
    (top_n : ℕ) (students : List (List (String × PyVal)))
    (hvalid : ∀ i ∈ job_index, i < jobs.length)
    (hgood : ∀ s ∈ students, goodStudent s = true) :
    ∃ res, match_students_to_jobs tokenize getText getScores jobs job_index top_n
      students = .ok res := by
  unfold match_students_to_jobs
  exact matchLoop_ok_of_good tokenize getText getScores jobs job_index top_n
    hvalid students hgood []

/-- C5 witness: a batch with one well-shaped student succeeds. -/
theorem C5_best_effort_defaulting_amended_witness :
    ((∀ i ∈ ([0] : List ℕ), i < [(default : Job)].length) ∧
      (∀ s ∈ [[("skills", PyVal.list [PyVal.str "a"])]], goodStudent s = true)) ∧
    ∃ res, match_students_to_jobs (fun _ => []) (fun s => s) (fun _ => [(0 : ℚ)])
        [(default : Job)] [0] 10 [[("skills", PyVal.list [PyVal.str "a"])]]
      = .ok res :=
  ⟨⟨by decide, fun s hs => by rw [List.mem_singleton.mp hs]; rfl⟩,
    C5_best_effort_defaulting_amended (fun _ => []) (fun s => s) (fun _ => [(0 : ℚ)])
      [(default : Job)] [0] 10 [[("skills", PyVal.list [PyVal.str "a"])]]
      (by decide) (fun s hs => by rw [List.mem_singleton.mp hs]; rfl)⟩

end JobMatch
